import Mathlib

/-!
Verification development for the OnCallGraph repository
(`src/app/solidityParser.ts` and `src/app/store.ts`).

The TypeScript source is shallowly embedded below:

* JavaScript `Map` objects (insertion-ordered, replace-on-set, last set wins)
  are embedded as association lists (`SMap`) whose `set` replaces an existing
  binding in place and otherwise appends; `get` returns the unique binding.
* JavaScript `Set` objects are embedded as lists queried by membership;
  `Array.from(new Set(xs))` (the source's `uniq`) is `uniq`.
* The external AST parser (`solidity-parser-antlr`) is out of the spec's
  scope.  It is embedded as a parameter `parse : String -> Except Unit Ast`
  over an `Ast` type holding exactly the fields the source reads, and the
  external visitor `parser.visit` is embedded by having the AST carry the
  list of visited `ContractDefinition` / `FunctionCall` nodes in visit order.
* The d3-force simulation (`forceSimulation` + 520 ticks) is a floating
  point external collaborator; it is embedded as an opaque parameter
  `simulate : List SimNode -> List SimLink -> List SimNode`.  Likewise the
  floating point radial seed placement `radialPosition` is a parameter
  `radialPos : Nat -> String -> Pos`; coordinates are carried as `Int`
  because no modeled operation computes with their numeric values.
-/

/-- 2D position.  The source stores JavaScript numbers; no modeled operation
performs arithmetic on coordinates, so they are carried abstractly as `Int`. -/
structure Pos where
  x : Int
  y : Int
deriving DecidableEq, Repr

/-- Association-list embedding of a JavaScript `Map` with string keys:
insertion-ordered, at most one binding per key. -/
abbrev SMap (α : Type) : Type := List (String × α)

/-- The empty map (`new Map()`). -/
def SMap.empty {α : Type} : SMap α := []

/-- `Map.prototype.get`: the value bound to `k`, if any. -/
def SMap.get {α : Type} : SMap α → String → Option α
  | [], _ => none
  | p :: m, k => if p.1 = k then some p.2 else SMap.get m k

/-- `Map.prototype.set`: replace the binding for `k` in place (JavaScript
`Map` keeps the original key position; maps built through `set` have unique
keys, so replacing the first occurrence is the `Map` behavior), else
append. -/
def SMap.set {α : Type} : SMap α → String → α → SMap α
  | [], k, v => [(k, v)]
  | p :: m, k, v => if p.1 = k then (k, v) :: m else p :: SMap.set m k v

/-- `Map.prototype.has`. -/
def SMap.has {α : Type} (m : SMap α) (k : String) : Bool :=
  (m.get k).isSome

/-- Keys of the map, in insertion order (`Map.prototype.keys`). -/
def SMap.keys {α : Type} (m : SMap α) : List String := m.map (·.1)

/-- `src/app/store.ts` lines 133-135: `uniq` = `Array.from(new Set(values))`,
i.e. deduplication keeping the first occurrence, in order. -/
def uniq (l : List String) : List String :=
  l.foldl (fun acc x => if x ∈ acc then acc else acc ++ [x]) []

/-- ECMAScript whitespace test used by `String.prototype.trim` (the common
characters; further exotic Unicode space separators behave identically for
every claim considered here). -/
def jsIsWhitespace (c : Char) : Bool :=
  c = ' ' || c = '\t' || c = '\n' || c = '\r' || c = '\x0b' || c = '\x0c' ||
    c = '\u00A0' || c = '\uFEFF' || c = '\u2028' || c = '\u2029'

/-- `String.prototype.trim`: strip leading and trailing whitespace. -/
def jsTrim (s : String) : String :=
  ⟨((s.data.dropWhile jsIsWhitespace).reverse.dropWhile jsIsWhitespace).reverse⟩

/-! ## Data model (`src/app/types.ts`) -/

/-- `ParseFunction` (`types.ts` lines 36-41).  `visibility` is the string
union `SolidityVisibility`, embedded as `String`. -/
structure ParseFunction where
  id : String
  contractName : String
  functionName : String
  visibility : String
deriving DecidableEq, Repr

/-- `ParseEdge` (`types.ts` lines 43-46). -/
structure ParseEdge where
  source : String
  target : String
deriving DecidableEq, Repr

/-- `ParseResult` (`types.ts` lines 48-51). -/
structure ParseResult where
  functions : List ParseFunction
  edges : List ParseEdge
deriving DecidableEq, Repr

/-- `FunctionNodeData` (`types.ts` lines 5-12). -/
structure FunctionNodeData where
  label : String
  contractName : String
  functionName : String
  visibility : String
  isBlacklisted : Bool
  hasNote : Bool
deriving DecidableEq, Repr

/-- `FunctionNode` = reactflow `Node<FunctionNodeData>`: the fields the
modeled code reads or writes (`id`, `type`, `position`, `data`). -/
structure FunctionNode where
  id : String
  type : String
  position : Pos
  data : FunctionNodeData
deriving DecidableEq, Repr

/-- `CallEdge` = reactflow `Edge`: the fields the modeled code reads or
writes (`id`, `source`, `target`, `type`). -/
structure CallEdge where
  id : String
  source : String
  target : String
  type : String
deriving DecidableEq, Repr

/-- `Note` (`types.ts` lines 18-22). -/
structure Note where
  nodeId : String
  content : String
  updatedAt : Nat
deriving DecidableEq, Repr

/-- `Panel` (`types.ts` lines 24-34), restricted to the fields the modeled
graph operations use (`id`, `name`, `code`, `minimap` are UI metadata never
read by `mergeGraph` / `syncFromParseResult`).  `notesByNodeId` is a string
keyed record, embedded as an association list with unique keys. -/
structure Panel where
  nodes : List FunctionNode
  edges : List CallEdge
  notesByNodeId : List (String × Note)
  blacklistedNodeIds : List String
  trashedNodeIds : List String
deriving DecidableEq, Repr

/-- Plain JavaScript object property access on `notesByNodeId`
(object keys are unique). -/
def recordGet : List (String × Note) → String → Option Note
  | [], _ => none
  | p :: m, k => if p.1 = k then some p.2 else recordGet m k

/-! ## Solidity analyzer (`src/app/solidityParser.ts`)

The external parser's AST carries exactly the fields the source reads.
`parser.visit(ast, { ContractDefinition })` is embedded by letting an `Ast`
be the list of visited `ContractDefinition` nodes in visit order, and
`parser.visit(body, { FunctionCall })` by letting a function body be the
list of visited `FunctionCall` nodes in visit order. -/

/-- A call expression's `expression` field: the source distinguishes
`type === 'Identifier'` (with `name`), `type === 'MemberAccess'` (with
`memberName` and a nested base `expression`), and anything else.  An absent
or non-record nested base expression is embedded as `.other`: the source
treats it identically to a non-`Identifier` base (`baseName` stays null). -/
inductive Expression where
  | identifier (name : Option String)
  | memberAccess (memberName : Option String) (expression : Expression)
  | other
deriving DecidableEq, Repr

/-- A visited `FunctionCall` node; the source only reads its `expression`
field (checked with `isRecord`, hence `Option`). -/
structure CallNode where
  expression : Option Expression
deriving DecidableEq, Repr

/-- A function body as seen through `parser.visit(body, { FunctionCall })`:
the `FunctionCall` nodes of the subtree in visit order. -/
abbrev Body : Type := List CallNode

/-- A `FunctionDefinition` sub-node: the fields read at
`solidityParser.ts` lines 45-51 and 82-98.  `body` is `none` when the
declaration has no body (`sub.body ?? null` stores `null`). -/
structure FunctionDef where
  kind : Option String
  isConstructor : Bool
  name : Option String
  visibility : Option String
  body : Option Body
deriving DecidableEq, Repr

/-- A contract sub-node: the source keeps only those with
`sub.type === 'FunctionDefinition'` (line 84) and skips the rest. -/
inductive SubNode where
  | functionDef (fd : FunctionDef)
  | other
deriving DecidableEq, Repr

/-- The `baseName` field of an inheritance specifier (lines 77-78). -/
structure BaseNameNode where
  namePath : Option String
  name : Option String
deriving DecidableEq, Repr

/-- One entry of `node.baseContracts` (lines 74-79). -/
structure BaseSpec where
  baseName : Option BaseNameNode
  name : Option String
deriving DecidableEq, Repr

/-- A visited `ContractDefinition` node (lines 69-73). -/
structure ContractDef where
  name : Option String
  subNodes : List SubNode
  baseContracts : List BaseSpec
deriving DecidableEq, Repr

/-- The AST produced by the external parser, as a visit-ordered list of
`ContractDefinition` nodes. -/
abbrev Ast : Type := List ContractDef

/-- `solidityParser.ts` lines 4-26: builtins excluded from callee names. -/
def callBlocklist : List String :=
  ["require", "assert", "revert", "emit", "if", "for", "while", "return",
   "new", "delete", "mapping", "address", "uint", "int", "bytes", "string",
   "bool", "keccak256", "sha256", "ripemd160", "ecrecover"]

/-- `solidityParser.ts` lines 28-31: `normalizeVisibility`. -/
def normalizeVisibility (value : Option String) : String :=
  match value with
  | some v =>
    if v = "public" || v = "private" || v = "internal" || v = "external" then v
    else "unknown"
  | none => "unknown"

/-- `solidityParser.ts` lines 45-51: `functionDisplayName`. -/
def functionDisplayName (fd : FunctionDef) : String :=
  if fd.isConstructor || fd.kind = some "constructor" then "constructor"
  else if fd.kind = some "fallback" then "fallback"
  else if fd.kind = some "receive" then "receive"
  else fd.name.getD "unknown"

/-- Name-to-identities table of one contract
(`Map<string, string[]>` in the source). -/
abbrev TMap : Type := SMap (List String)

/-- Mutable state of the first pass (`parseSoliditySource` lines 54-59). -/
structure ScanState where
  functions : List ParseFunction
  bodiesById : SMap (Option Body)
  functionIdsByContract : SMap TMap
  baseContractsByContract : SMap (List String)
  seen : SMap Nat
deriving Repr

/-- Initial scan state: the five empty collections of lines 54-59. -/
def ScanState.initial : ScanState :=
  { functions := [], bodiesById := [], functionIdsByContract := [],
    baseContractsByContract := [], seen := [] }

/-- `solidityParser.ts` lines 82-98: processing one contract sub-node
(`for (const sub of subNodes)` loop body). -/
def scanFunction (contractName : String) (st : ScanState) (sub : SubNode) : ScanState :=
  match sub with
  | .other => st
  | .functionDef fd =>
    let functionName := functionDisplayName fd
    let base := contractName ++ "." ++ functionName
    let next := (st.seen.get base).getD 0 + 1
    let seen := st.seen.set base next
    let id := if next = 1 then base else base ++ "#" ++ toString next
    let visibility := normalizeVisibility fd.visibility
    let functions := st.functions ++
      [{ id := id, contractName := contractName, functionName := functionName,
         visibility := visibility }]
    let bodiesById := st.bodiesById.set id fd.body
    let byName := (st.functionIdsByContract.get contractName).getD SMap.empty
    let list := (byName.get functionName).getD []
    let byName' := byName.set functionName (list ++ [id])
    let functionIdsByContract := st.functionIdsByContract.set contractName byName'
    { functions := functions, bodiesById := bodiesById,
      functionIdsByContract := functionIdsByContract,
      baseContractsByContract := st.baseContractsByContract, seen := seen }

/-- Lines 74-80: extract one base contract's name.  `?? null` chains keep
empty strings, but the `Boolean(value)` filter then drops them. -/
def baseSpecName (b : BaseSpec) : Option String :=
  match ((b.baseName.bind (·.namePath)).orElse fun _ => b.baseName.bind (·.name)).orElse
      (fun _ => b.name) with
  | some s => if s = "" then none else some s
  | none => none

/-- Lines 69-99: the `ContractDefinition` visitor. -/
def scanContract (st : ScanState) (c : ContractDef) : ScanState :=
  let contractName := c.name.getD "Contract"
  let baseNames := c.baseContracts.filterMap baseSpecName
  let st' :=
    if baseNames.length > 0 then
      { st with baseContractsByContract :=
          st.baseContractsByContract.set contractName baseNames }
    else st
  c.subNodes.foldl (scanFunction contractName) st'

/-- Lines 68-100: `parser.visit(ast, { ContractDefinition })`. -/
def scanAst (ast : Ast) : ScanState :=
  ast.foldl scanContract ScanState.initial

/-- Lines 104-109: `mergeTargets` — concatenate the identity lists of
`source` into `target`, name by name, in `source`'s iteration order. -/
def mergeTargets (target source : TMap) : TMap :=
  source.foldl (fun t p => t.set p.1 ((t.get p.1).getD [] ++ p.2)) target

/-- Lines 104-109 inner loop of `getTargets`
(`for (const base of bases) mergeTargets(combined, getTargets(base))`),
threading the memo cache through the recursive lookups. -/
def goBases (gt : SMap TMap → String → SMap TMap × TMap) :
    SMap TMap → TMap → List String → SMap TMap × TMap
  | cache, acc, [] => (cache, acc)
  | cache, acc, b :: bs =>
    let r := gt cache b
    goBases gt r.1 (mergeTargets acc r.2) bs

/-- Lines 110-122: `getTargets`, the memoized, cycle-guarded inheritance
resolution.  The mutable `resolvedTargetsByContract` map is the threaded
`cache`; the mutable `resolving` set is the `resolving` list (the chain of
contracts currently being computed, i.e. the recursion path).  `fuel`
models the JavaScript call stack: the recursion consumes one unit per
nested call; theorem `getTargetsF_fuel_irrel` below shows that any fuel
larger than the number of contracts with declared bases yields the same
result, which is the termination argument for the source's recursion. -/
def getTargetsF (fidc : SMap TMap) (bcc : SMap (List String)) :
    Nat → List String → SMap TMap → String → SMap TMap × TMap
  | 0, _, cache, _ => (cache, [])
  | fuel + 1, resolving, cache, contractName =>
    match cache.get contractName with
    | some cached => (cache, cached)
    | none =>
      if contractName ∈ resolving then (cache, [])
      else
        let combined := mergeTargets [] ((fidc.get contractName).getD SMap.empty)
        let bases := (bcc.get contractName).getD []
        let r := goBases (getTargetsF fidc bcc fuel (contractName :: resolving))
          cache combined bases
        (r.1.set contractName r.2, r.2)

/-- The fuel handed to `getTargetsF` by the edge pass: one more than the
number of contracts with declared bases (only those can recurse). -/
def targetsFuel (bcc : SMap (List String)) : Nat := bcc.keys.length + 1

/-- Mutable state of the second pass (lines 102, 124): the memo cache, the
edge-id dedup set and the edge list. -/
structure EdgeState where
  cache : SMap TMap
  edgeIds : List String
  edges : List ParseEdge
deriving Repr

/-- Lines 159-167: emit the deduplicated edges for one resolved call. -/
def emitEdges (fnId : String) (calleeName : String) (targetMaps : List TMap)
    (edgeIds : List String) (edges : List ParseEdge) : List String × List ParseEdge :=
  targetMaps.foldl
    (fun acc targets =>
      ((targets.get calleeName).getD []).foldl
        (fun acc2 target =>
          let edgeId := fnId ++ "->" ++ target
          if edgeId ∈ acc2.1 then acc2
          else (acc2.1 ++ [edgeId], acc2.2 ++ [{ source := fnId, target := target }]))
        acc)
    (edgeIds, edges)

/-- Lines 129-168: the `FunctionCall` visitor for one call node inside the
body of `fn`.  Note the source resolves `targetMaps` (calling `getTargets`,
which updates the cache) before the empty/blocklisted callee check, and the
unresolvable `MemberAccess` receivers return before touching anything. -/
def handleCall (fidc : SMap TMap) (bcc : SMap (List String)) (fn : ParseFunction)
    (st : EdgeState) (call : CallNode) : EdgeState :=
  match call.expression with
  | none => st
  | some expr =>
    let fuel := targetsFuel bcc
    let resolved : Option (SMap TMap × Option String × List TMap) :=
      match expr with
      | .identifier name =>
        let r := getTargetsF fidc bcc fuel [] st.cache fn.contractName
        some (r.1, name, [r.2])
      | .memberAccess memberName baseExpr =>
        match memberName with
        | none => none
        | some m =>
          if m = "" then none
          else
            match baseExpr with
            | .identifier (some baseName) =>
              if baseName = "" then none
              else if baseName = "this" || baseName = fn.contractName then
                let r := getTargetsF fidc bcc fuel [] st.cache fn.contractName
                some (r.1, some m, [r.2])
              else if baseName = "super" then
                let bases := (bcc.get fn.contractName).getD []
                let r := bases.foldl
                  (fun acc name =>
                    let r := getTargetsF fidc bcc fuel [] acc.1 name
                    (r.1, acc.2 ++ [r.2]))
                  (st.cache, ([] : List TMap))
                some (r.1, some m, r.2)
              else if (fidc.get baseName).isSome then
                let r := getTargetsF fidc bcc fuel [] st.cache baseName
                some (r.1, some m, [r.2])
              else none
            | _ => none
      | .other => some (st.cache, none, [])
    match resolved with
    | none => st
    | some (cache, calleeName, targetMaps) =>
      match calleeName with
      | none => { st with cache := cache }
      | some cn =>
        if cn = "" || cn ∈ callBlocklist then { st with cache := cache }
        else
          let r := emitEdges fn.id cn targetMaps st.edgeIds st.edges
          { cache := cache, edgeIds := r.1, edges := r.2 }

/-- Lines 124-170: the edge-producing pass over every scanned function's
body (`if (!body) continue` skips functions without one). -/
def edgePass (st : ScanState) : EdgeState :=
  st.functions.foldl
    (fun es fn =>
      match st.bodiesById.get fn.id with
      | some (some body) =>
        body.foldl (handleCall st.functionIdsByContract st.baseContractsByContract fn) es
      | _ => es)
    { cache := [], edgeIds := [], edges := [] }

/-- `solidityParser.ts` lines 53-173: `parseSoliditySource`.  The external
parser (`parser.parse` in tolerant mode) is the `parse` parameter; the
`try/catch` of lines 61-66 is the `Except` match: any parse failure yields
the empty result instead of propagating.  The Lean function is total, so it
can never raise to its caller. -/
def parseSoliditySource (parse : String → Except Unit Ast) (code : String) : ParseResult :=
  match parse code with
  | .error _ => { functions := [], edges := [] }
  | .ok ast =>
    let st := scanAst ast
    { functions := st.functions, edges := (edgePass st).edges }

/-! ## Graph merger and synchronizer (`src/app/store.ts`)

The zustand store wiring (permission checks, active-panel lookup, highlight
recomputation, timers) is UI plumbing around the pure per-panel graph
operations embedded here. -/

/-- Last-set-wins lookup of a node by id: `new Map(nodes.map(n => [n.id, n]))`
followed by `get` (`store.ts` line 172). -/
def mapGetLast (nodes : List FunctionNode) (id : String) : Option FunctionNode :=
  nodes.foldl (fun acc n => if n.id = id then some n else acc) none

/-- `store.ts` line 179: the canonical node id of a fresh function,
`fn.id || contractName.functionName` (JavaScript `||`: the fallback is
used when `fn.id` is the empty string). -/
def deriveId (fn : ParseFunction) : String :=
  if fn.id = "" then fn.contractName ++ "." ++ fn.functionName else fn.id

/-- The ids contributed by the fresh `ParseResult`
(the `presentIds` array accumulated at lines 177-180). -/
def presentIds (parsed : ParseResult) : List String :=
  parsed.functions.map deriveId

/-- `store.ts` lines 178-213: build the node for one fresh function —
update the existing node in place (keeping its position, refreshing the
analysis-driven data fields) or create a new node at the radial seed
position.  `index` is `nextNodes.length`, the number of fresh nodes already
pushed. -/
def mergeNodeFor (radialPos : Nat → String → Pos) (panel : Panel) (index : Nat)
    (fn : ParseFunction) : FunctionNode :=
  let id := deriveId fn
  let hasNote :=
    match recordGet panel.notesByNodeId id with
    | some note => !(jsTrim note.content = "")
    | none => false
  let isBlacklisted := decide (id ∈ panel.blacklistedNodeIds)
  match mapGetLast panel.nodes id with
  | some existing =>
    { existing with
      id := id,
      data := { existing.data with
        label := fn.functionName ++ "()", contractName := fn.contractName,
        functionName := fn.functionName, visibility := fn.visibility,
        isBlacklisted := isBlacklisted, hasNote := hasNote } }
  | none =>
    { id := id, type := "function", position := radialPos index id,
      data := { label := fn.functionName ++ "()", contractName := fn.contractName,
                functionName := fn.functionName, visibility := fn.visibility,
                isBlacklisted := isBlacklisted, hasNote := hasNote } }

/-- The `for (const fn of parsed.functions)` loop of lines 178-214,
written with its running index. -/
def buildFreshNodes (radialPos : Nat → String → Pos) (panel : Panel) :
    Nat → List ParseFunction → List FunctionNode
  | _, [] => []
  | i, fn :: rest =>
    mergeNodeFor radialPos panel i fn :: buildFreshNodes radialPos panel (i + 1) rest

/-- Lines 225-234: rebuild the edge list entirely from the fresh result,
keeping only edges with both endpoints present. -/
def buildEdges (present : List String) : List ParseEdge → List CallEdge
  | [] => []
  | e :: rest =>
    if e.source ∈ present ∧ e.target ∈ present then
      { id := e.source ++ "->" ++ e.target, source := e.source, target := e.target,
        type := "bezier" } :: buildEdges present rest
    else buildEdges present rest

/-- The merge result `Pick<Panel, 'nodes' | 'edges' | 'trashedNodeIds'>`. -/
structure MergeResult where
  nodes : List FunctionNode
  edges : List CallEdge
  trashedNodeIds : List String
deriving DecidableEq, Repr

/-- `store.ts` lines 171-237: `mergeGraph`.  `existingKeys` are the keys of
the `existingById` map (first-occurrence order); `vanished` are the
existing ids absent from the fresh result, which are appended (with their
last-bound node) after the fresh nodes and added to the trashed set.  The
local `trashed` set of lines 174/218 is mutated but never read afterwards,
so it does not appear here. -/
def mergeGraph (radialPos : Nat → String → Pos) (panel : Panel) (parsed : ParseResult) :
    MergeResult :=
  let present := presentIds parsed
  let existingKeys := uniq (panel.nodes.map (·.id))
  let fresh := buildFreshNodes radialPos panel 0 parsed.functions
  let vanished := existingKeys.filter (fun id => ¬ id ∈ present)
  let preserved := vanished.filterMap (fun id => mapGetLast panel.nodes id)
  { nodes := fresh ++ preserved,
    edges := buildEdges present parsed.edges,
    trashedNodeIds := uniq (panel.trashedNodeIds ++ vanished) }

/-- One body of the d3-force simulation (`store.ts` lines 240-249):
position plus the pin (`fx`/`fy`) set for fixed nodes. -/
structure SimNode where
  id : String
  x : Int
  y : Int
  fx : Option Int
  fy : Option Int
deriving DecidableEq, Repr

/-- One link of the simulation (line 250). -/
structure SimLink where
  source : String
  target : String
deriving DecidableEq, Repr

/-- Last-set-wins position lookup in the simulated bodies
(`new Map(simNodes.map(n => [n.id, n]))`, line 275). -/
def simGetLast (simmed : List SimNode) (id : String) : Option SimNode :=
  simmed.foldl (fun acc n => if n.id = id then some n else acc) none

/-- `store.ts` lines 276-280: write the simulated position (if the body is
found) back onto a node. -/
def repositionNode (simmed : List SimNode) (n : FunctionNode) : FunctionNode :=
  match simGetLast simmed n.id with
  | some p => { n with position := { x := p.x, y := p.y } }
  | none => n

/-- `store.ts` lines 239-281: `applyForceLayout`.  The d3-force engine
(`forceSimulation` with the charge/center/radial/collide/link forces,
advanced 520 ticks, lines 252-273) is an external floating point
collaborator, embedded as the opaque `simulate` parameter mapping the
initial bodies and links to the post-tick bodies. -/
def applyForceLayout (simulate : List SimNode → List SimLink → List SimNode)
    (nodes : List FunctionNode) (edges : List CallEdge)
    (fixedIds : Option (List String)) : List FunctionNode :=
  let simNodes := nodes.map (fun n =>
    let isFixed :=
      match fixedIds with
      | some ids => decide (n.id ∈ ids)
      | none => false
    { id := n.id, x := n.position.x, y := n.position.y,
      fx := if isFixed then some n.position.x else none,
      fy := if isFixed then some n.position.y else none : SimNode })
  let simLinks := edges.map (fun e => { source := e.source, target := e.target : SimLink })
  let simmed := simulate simNodes simLinks
  nodes.map (repositionNode simmed)

/-- `store.ts` lines 489-493: keep a pre-existing node as merged, and give
a new node its layouted position (when the layout output still has it). -/
def anchoredReposition (existingIds : List String) (layouted : List FunctionNode)
    (n : FunctionNode) : FunctionNode :=
  if n.id ∈ existingIds then n
  else
    match mapGetLast layouted n.id with
    | some ln => { n with position := ln.position }
    | none => n

/-- `store.ts` lines 473-495: the per-panel body of `syncFromParseResult` —
merge, then lay out only when the panel already had nodes and the merge
introduced new ones, reinstating the merged (pre-existing) positions for
every pre-existing id. -/
def syncPanelApply (simulate : List SimNode → List SimLink → List SimNode)
    (radialPos : Nat → String → Pos) (p : Panel) (result : ParseResult) : Panel :=
  let merged := mergeGraph radialPos p result
  if merged.nodes.length = 0 then
    { p with
      nodes := merged.nodes, edges := merged.edges,
      trashedNodeIds := merged.trashedNodeIds }
  else
    let existingIds := uniq (p.nodes.map (·.id))
    let hasExisting := 0 < existingIds.length
    let hasNew := merged.nodes.any (fun n => decide (¬ n.id ∈ existingIds))
    if ¬ hasExisting then
      { p with
        nodes := applyForceLayout simulate merged.nodes merged.edges none,
        edges := merged.edges, trashedNodeIds := merged.trashedNodeIds }
    else if ¬ hasNew then
      { p with
        nodes := merged.nodes, edges := merged.edges,
        trashedNodeIds := merged.trashedNodeIds }
    else
      let layouted := applyForceLayout simulate merged.nodes merged.edges (some existingIds)
      let nodes := merged.nodes.map (anchoredReposition existingIds layouted)
      { p with
        nodes := nodes, edges := merged.edges,
        trashedNodeIds := merged.trashedNodeIds }

/-- The diff summary stored as `lastSyncStats` (minus the wall-clock `at`
field, which is ambient time). -/
structure SyncStats where
  addedNodes : Nat
  addedEdges : Nat
  removedNodes : Nat
  removedEdges : Nat
deriving DecidableEq, Repr

/-- `store.ts` lines 470-508: the diff accounting of `syncFromParseResult`,
computed from the active panel before (`prev`) and after (`next`) the
per-panel sync.  `prevNodeIds`/`nextNodeIds`/`prevEdgeIds`/`nextEdgeIds`
are JavaScript `Set`s, hence the `uniq`; `newlyTrashed` filters the raw
trashed array. -/
def computeSyncStats (prev next : Panel) : SyncStats :=
  let prevNodeIds := uniq (prev.nodes.map (·.id))
  let prevEdgeIds := uniq (prev.edges.map (·.id))
  let nextNodeIds := uniq (next.nodes.map (·.id))
  let nextEdgeIds := uniq (next.edges.map (·.id))
  { addedNodes := (nextNodeIds.filter (fun id => ¬ id ∈ prevNodeIds)).length,
    addedEdges := (nextEdgeIds.filter (fun id => ¬ id ∈ prevEdgeIds)).length,
    removedNodes := (next.trashedNodeIds.filter
      (fun id => ¬ id ∈ prev.trashedNodeIds)).length,
    removedEdges := (prevEdgeIds.filter (fun id => ¬ id ∈ nextEdgeIds)).length }

/-- The identity key `<ContractName>.<FunctionName>` that the scan's global
`seen` counter is keyed by (`solidityParser.ts` line 86). -/
def fnKey (f : ParseFunction) : String := f.contractName ++ "." ++ f.functionName

/-- The id assigned to the k-th (1-based) occurrence of a base key
(`solidityParser.ts` line 89). -/
def mkNumberedId (base : String) (k : Nat) : String :=
  if k = 1 then base else base ++ "#" ++ toString k

/-- Number of functions in a scanned prefix whose identity key is `b`. -/
def countKey (l : List ParseFunction) (b : String) : Nat :=
  (l.filter (fun g => fnKey g = b)).length

/-- Invariant of the scan pass: `seen` counts, per identity key, the
functions already emitted with that key, and every emitted function's id
follows the occurrence-numbering rule over the prefix before it. -/
def ScanInv (st : ScanState) : Prop :=
  (∀ b, (st.seen.get b).getD 0 = countKey st.functions b) ∧
  (∀ pre f post, st.functions = pre ++ f :: post →
    f.id = mkNumberedId (fnKey f) (countKey pre (fnKey f) + 1))

/-- The number of contracts with declared bases that are not yet on the
resolution path: the measure bounding `getTargets`'s recursion depth. -/
def freeCount (bcc : SMap (List String)) (resolving : List String) : Nat :=
  (bcc.keys.filter (fun k => ¬ k ∈ resolving)).length

/-! ## Concrete instances used by witnesses and counterexamples -/

/-- A fixed instantiation of the abstract radial seed-position parameter,
used when evaluating the merge on concrete inputs. -/
def zeroRadial : Nat → String → Pos := fun _ _ => { x := 0, y := 0 }

/-- A fixed instantiation of the abstract d3-force `simulate` parameter
(the identity on bodies), used for concrete evaluations. -/
def idSimulate : List SimNode → List SimLink → List SimNode := fun ns _ => ns

/-- The AST the external parser produces for the spec's inheritance
example: `contract B { function g() { _h(); } function _h() {} }` and
`contract A is B { function f() { super.g(); } }`. -/
def inheritanceAst : Ast :=
  [{ name := some "B",
     subNodes :=
       [SubNode.functionDef
          { kind := none, isConstructor := false, name := some "g",
            visibility := none,
            body := some [{ expression := some (Expression.identifier (some "_h")) }] },
        SubNode.functionDef
          { kind := none, isConstructor := false, name := some "_h",
            visibility := none, body := some [] }],
     baseContracts := [] },
   { name := some "A",
     subNodes :=
       [SubNode.functionDef
          { kind := none, isConstructor := false, name := some "f",
            visibility := none,
            body := some [{ expression := some (Expression.memberAccess (some "g")
              (Expression.identifier (some "super"))) }] }],
     baseContracts :=
       [{ baseName := some { namePath := some "B", name := none }, name := none }] }]

/-- The external parser fixed on the inheritance example. -/
def inheritanceParse : String → Except Unit Ast := fun _ => Except.ok inheritanceAst

/-- The source text of the inheritance example. -/
def inheritanceSource : String :=
  "contract B { function g() { _h(); } function _h() {} } " ++
    "contract A is B { function f() { super.g(); } }"

/-- An AST with two functions named `f` in one contract (overload
numbering example). -/
def overloadAst : Ast :=
  [{ name := some "Contract",
     subNodes :=
       [SubNode.functionDef
          { kind := none, isConstructor := false, name := some "f",
            visibility := some "public", body := some [] },
        SubNode.functionDef
          { kind := none, isConstructor := false, name := some "f",
            visibility := some "internal", body := some [] }],
     baseContracts := [] }]

/-- The external parser fixed on the overload example. -/
def overloadParse : String → Except Unit Ast := fun _ => Except.ok overloadAst

/-- A parser that always fails (malformed source). -/
def failingParse : String → Except Unit Ast := fun _ => Except.error ()

/-- A node with a stale note flag, used to exercise merges on concrete
panels. -/
def nodeAf : FunctionNode :=
  { id := "A.f", type := "function", position := { x := 3, y := 4 },
    data := { label := "f()", contractName := "A", functionName := "f",
              visibility := "public", isBlacklisted := false, hasNote := true } }

/-- A panel whose only node is `A.f`, already trashed. -/
def panelTrashedAf : Panel :=
  { nodes := [nodeAf], edges := [], notesByNodeId := [],
    blacklistedNodeIds := [], trashedNodeIds := ["A.f"] }

/-- A fresh result that declares `A.f` again (plus `A.g` and an edge). -/
def resultWithAf : ParseResult :=
  { functions :=
      [{ id := "A.f", contractName := "A", functionName := "f", visibility := "public" },
       { id := "A.g", contractName := "A", functionName := "g", visibility := "public" }],
    edges := [{ source := "A.f", target := "A.g" }] }

/-- A panel whose only node is `A.f` with `hasNote = true` while the notes
map holds no note at all. -/
def panelStaleNote : Panel :=
  { nodes := [nodeAf], edges := [], notesByNodeId := [],
    blacklistedNodeIds := [], trashedNodeIds := [] }

/-- The empty fresh result. -/
def emptyResult : ParseResult := { functions := [], edges := [] }

/-- A panel holding a whitespace-only note and a real note, used by the
note-flag witness. -/
def panelNotes : Panel :=
  { nodes := [],
    edges := [],
    notesByNodeId :=
      [("A.f", { nodeId := "A.f", content := "  \t ", updatedAt := 1 }),
       ("A.g", { nodeId := "A.g", content := " audited ", updatedAt := 2 })],
    blacklistedNodeIds := [], trashedNodeIds := [] }

/-- A cyclic inheritance table (`A is B`, `B is A`), used by the
cycle-guard witness. -/
def cyclicBcc : SMap (List String) := [("A", ["B"]), ("B", ["A"])]

/-- Function tables for the two contracts of the cyclic example. -/
def cyclicFidc : SMap TMap := [("A", [("f", ["A.f"])]), ("B", [("g", ["B.g"])])]

/-! ## Helper lemmas -/

theorem mem_uniq_aux (l : List String) : ∀ (acc : List String) (x : String),
    (x ∈ l.foldl (fun acc x => if x ∈ acc then acc else acc ++ [x]) acc) ↔
      x ∈ acc ∨ x ∈ l := by
  induction l with
  | nil => simp
  | cons a l ih =>
    intro acc x
    simp only [List.foldl_cons]
    rw [ih]
    by_cases h : a ∈ acc
    · rw [if_pos h]
      simp only [List.mem_cons]
      constructor
      · rintro (hx | hx)
        · exact Or.inl hx
        · exact Or.inr (Or.inr hx)
      · rintro (hx | hx | hx)
        · exact Or.inl hx
        · exact Or.inl (hx ▸ h)
        · exact Or.inr hx
    · rw [if_neg h]
      simp only [List.mem_append, List.mem_singleton, List.mem_cons]
      tauto

theorem mem_uniq (l : List String) (x : String) : x ∈ uniq l ↔ x ∈ l := by
  unfold uniq
  rw [mem_uniq_aux]
  simp

theorem mapGetLast_append (ns : List FunctionNode) (x : FunctionNode) (i : String) :
    mapGetLast (ns ++ [x]) i = if x.id = i then some x else mapGetLast ns i := by
  unfold mapGetLast
  rw [List.foldl_append]
  simp

theorem mapGetLast_mem (i : String) : ∀ (ns : List FunctionNode) (m : FunctionNode),
    mapGetLast ns i = some m → m ∈ ns ∧ m.id = i := by
  intro ns
  induction ns using List.reverseRecOn with
  | nil => intro m h; simp [mapGetLast] at h
  | append_singleton ns x ih =>
    intro m h
    rw [mapGetLast_append] at h
    by_cases hx : x.id = i
    · rw [if_pos hx] at h
      cases h
      exact ⟨List.mem_append_right _ (List.mem_singleton.mpr rfl), hx⟩
    · rw [if_neg hx] at h
      rcases ih m h with ⟨hm, hid⟩
      exact ⟨List.mem_append_left _ hm, hid⟩

theorem mapGetLast_isSome (i : String) : ∀ (ns : List FunctionNode),
    (∃ n ∈ ns, n.id = i) → ∃ m, mapGetLast ns i = some m := by
  intro ns
  induction ns using List.reverseRecOn with
  | nil => rintro ⟨n, hn, _⟩; simp at hn
  | append_singleton ns x ih =>
    rintro ⟨n, hn, hid⟩
    rw [mapGetLast_append]
    by_cases hx : x.id = i
    · exact ⟨x, if_pos hx⟩
    · rw [if_neg hx]
      rcases List.mem_append.mp hn with hn' | hn'
      · exact ih ⟨n, hn', hid⟩
      · rw [List.mem_singleton] at hn'
        exact absurd (hn' ▸ hid) hx

theorem mapGetLast_nodup (ns : List FunctionNode)
    (hnd : (ns.map (·.id)).Nodup) :
    ∀ n ∈ ns, mapGetLast ns n.id = some n := by
  induction ns using List.reverseRecOn with
  | nil => intro n hn; simp at hn
  | append_singleton ns x ih =>
    intro n hn
    rw [List.map_append, List.nodup_append] at hnd
    obtain ⟨hnd₁, -, hdisj⟩ := hnd
    rw [mapGetLast_append]
    rcases List.mem_append.mp hn with hn' | hn'
    · have hne : x.id ≠ n.id := by
        intro he
        exact hdisj (List.mem_map.mpr ⟨n, hn', rfl⟩) (by simp [he])
      rw [if_neg hne]
      exact ih hnd₁ n hn'
    · rw [List.mem_singleton] at hn'
      subst hn'
      simp

theorem mergeNodeFor_id (rp : Nat → String → Pos) (panel : Panel) (i : Nat)
    (fn : ParseFunction) : (mergeNodeFor rp panel i fn).id = deriveId fn := by
  unfold mergeNodeFor
  cases h : mapGetLast panel.nodes (deriveId fn) <;> simp [h]

theorem mergeNodeFor_hasNote (rp : Nat → String → Pos) (panel : Panel) (i : Nat)
    (fn : ParseFunction) : (mergeNodeFor rp panel i fn).data.hasNote =
      (match recordGet panel.notesByNodeId (deriveId fn) with
       | some note => !decide (jsTrim note.content = "")
       | none => false) := by
  unfold mergeNodeFor
  cases h : mapGetLast panel.nodes (deriveId fn) <;> simp [h]

theorem mergeNodeFor_position (rp : Nat → String → Pos) (panel : Panel) (i : Nat)
    (fn : ParseFunction) (ex : FunctionNode)
    (h : mapGetLast panel.nodes (deriveId fn) = some ex) :
    (mergeNodeFor rp panel i fn).position = ex.position := by
  unfold mergeNodeFor
  simp [h]

theorem buildFreshNodes_map_id (rp : Nat → String → Pos) (panel : Panel) :
    ∀ (fns : List ParseFunction) (i : Nat),
      (buildFreshNodes rp panel i fns).map (·.id) = fns.map deriveId := by
  intro fns
  induction fns with
  | nil => intro i; rfl
  | cons fn rest ih =>
    intro i
    simp [buildFreshNodes, mergeNodeFor_id, ih]

theorem mem_buildFreshNodes_of_mem (rp : Nat → String → Pos) (panel : Panel) :
    ∀ (fns : List ParseFunction) (i : Nat) (fn : ParseFunction), fn ∈ fns →
      ∃ j, mergeNodeFor rp panel j fn ∈ buildFreshNodes rp panel i fns := by
  intro fns
  induction fns with
  | nil => intro i fn h; simp at h
  | cons f rest ih =>
    intro i fn h
    rcases List.mem_cons.mp h with h' | h'
    · exact ⟨i, by simp [buildFreshNodes, h']⟩
    · rcases ih (i + 1) fn h' with ⟨j, hj⟩
      exact ⟨j, by simp [buildFreshNodes, Or.inr hj]⟩

theorem of_mem_buildFreshNodes (rp : Nat → String → Pos) (panel : Panel) :
    ∀ (fns : List ParseFunction) (i : Nat) (n : FunctionNode),
      n ∈ buildFreshNodes rp panel i fns →
      ∃ j fn, fn ∈ fns ∧ n = mergeNodeFor rp panel j fn := by
  intro fns
  induction fns with
  | nil => intro i n h; simp [buildFreshNodes] at h
  | cons f rest ih =>
    intro i n h
    rcases List.mem_cons.mp h with h' | h'
    · exact ⟨i, f, List.mem_cons_self _ _, h'⟩
    · rcases ih (i + 1) n h' with ⟨j, fn, hfn, hn⟩
      exact ⟨j, fn, List.mem_cons_of_mem _ hfn, hn⟩

theorem buildEdges_eq (present : List String) : ∀ (es : List ParseEdge),
    buildEdges present es =
      (es.filter (fun e => decide (e.source ∈ present ∧ e.target ∈ present))).map
        (fun e => { id := e.source ++ "->" ++ e.target, source := e.source,
                    target := e.target, type := "bezier" }) := by
  intro es
  induction es with
  | nil => rfl
  | cons e rest ih =>
    by_cases h : e.source ∈ present ∧ e.target ∈ present
    · simp [buildEdges, List.filter_cons, h, ih]
    · simp [buildEdges, List.filter_cons, h, ih]

theorem mergeGraph_nodes (rp : Nat → String → Pos) (panel : Panel) (parsed : ParseResult) :
    (mergeGraph rp panel parsed).nodes =
      buildFreshNodes rp panel 0 parsed.functions ++
        ((uniq (panel.nodes.map (·.id))).filter
          (fun id => ¬ id ∈ presentIds parsed)).filterMap
          (fun id => mapGetLast panel.nodes id) := rfl

theorem mergeGraph_edges (rp : Nat → String → Pos) (panel : Panel) (parsed : ParseResult) :
    (mergeGraph rp panel parsed).edges = buildEdges (presentIds parsed) parsed.edges := rfl

theorem mergeGraph_trashed (rp : Nat → String → Pos) (panel : Panel) (parsed : ParseResult) :
    (mergeGraph rp panel parsed).trashedNodeIds =
      uniq (panel.trashedNodeIds ++
        (uniq (panel.nodes.map (·.id))).filter (fun id => ¬ id ∈ presentIds parsed)) := rfl

/-! ## Claim theorems -/

/-- C2: for every input source text, `parseSoliditySource` never raises to
its caller (it is a total function); on any parse failure of the external
parser (malformed source) it returns the empty ParseResult
`{functions := [], edges := []}` instead of propagating an error. -/
theorem parseSoliditySource_parse_failure_empty
    (parse : String → Except Unit Ast) (code : String)
    (h : parse code = Except.error ()) :
    parseSoliditySource parse code = { functions := [], edges := [] } := by
  unfold parseSoliditySource
  rw [h]

/-- Witness for C2 at the always-failing parser. -/
theorem parseSoliditySource_parse_failure_empty_witness :
    failingParse "contract ???" = Except.error () ∧
      parseSoliditySource failingParse "contract ???" = { functions := [], edges := [] } :=
  ⟨rfl, parseSoliditySource_parse_failure_empty failingParse "contract ???" rfl⟩

/-- C4: for every panel and fresh ParseResult, every node of the input
panel still has a node with its id in the merge output (merge never
deletes a node), and the output trashed-id set is exactly the union of the
previous trashed ids with the ids of existing nodes absent from the fresh
result. -/
theorem mergeGraph_never_deletes_and_trash_union
    (rp : Nat → String → Pos) (panel : Panel) (parsed : ParseResult) :
    (∀ n ∈ panel.nodes, ∃ m ∈ (mergeGraph rp panel parsed).nodes, m.id = n.id) ∧
    (∀ id : String, id ∈ (mergeGraph rp panel parsed).trashedNodeIds ↔
      id ∈ panel.trashedNodeIds ∨
        (id ∈ panel.nodes.map (·.id) ∧ ¬ id ∈ presentIds parsed)) := by
  constructor
  · intro n hn
    rw [mergeGraph_nodes]
    by_cases hp : n.id ∈ presentIds parsed
    · rcases List.mem_map.mp hp with ⟨fn, hfn, hid⟩
      rcases mem_buildFreshNodes_of_mem rp panel parsed.functions 0 fn hfn with ⟨j, hj⟩
      exact ⟨mergeNodeFor rp panel j fn, List.mem_append_left _ hj,
        by rw [mergeNodeFor_id, hid]⟩
    · rcases mapGetLast_isSome n.id panel.nodes ⟨n, hn, rfl⟩ with ⟨m, hm⟩
      refine ⟨m, List.mem_append_right _ ?_, (mapGetLast_mem _ _ _ hm).2⟩
      refine List.mem_filterMap.mpr ⟨n.id, List.mem_filter.mpr ⟨?_, ?_⟩, hm⟩
      · exact (mem_uniq _ _).mpr (List.mem_map.mpr ⟨n, hn, rfl⟩)
      · simpa using hp
  · intro id
    rw [mergeGraph_trashed, mem_uniq, List.mem_append, List.mem_filter, mem_uniq]
    simp

/-- Witness for C4 at a concrete panel and result: the trashed node `A.f`
is re-listed by the fresh result, stays a node, and the trash set relation
holds at `A.f`. -/
theorem mergeGraph_never_deletes_and_trash_union_witness :
    (nodeAf ∈ panelTrashedAf.nodes ∧
      ∃ m ∈ (mergeGraph zeroRadial panelTrashedAf resultWithAf).nodes, m.id = nodeAf.id) ∧
    ("A.f" ∈ (mergeGraph zeroRadial panelTrashedAf resultWithAf).trashedNodeIds ↔
      "A.f" ∈ panelTrashedAf.trashedNodeIds ∨
        ("A.f" ∈ panelTrashedAf.nodes.map (·.id) ∧ ¬ "A.f" ∈ presentIds resultWithAf)) :=
  ⟨⟨by decide,
    (mergeGraph_never_deletes_and_trash_union zeroRadial panelTrashedAf resultWithAf).1
      nodeAf (by decide)⟩,
   (mergeGraph_never_deletes_and_trash_union zeroRadial panelTrashedAf resultWithAf).2 "A.f"⟩

/-- C6: the merge's output edge list is exactly the fresh edges whose two
endpoints are among the fresh function ids, each with id
`"source->target"` (and reactflow type `bezier`); no previous edge
survives on its own, and edges at an absent endpoint are dropped even when
that endpoint's node is still displayed as trashed. -/
theorem mergeGraph_edges_rebuilt_from_fresh
    (rp : Nat → String → Pos) (panel : Panel) (parsed : ParseResult) :
    (mergeGraph rp panel parsed).edges =
      (parsed.edges.filter
        (fun e => decide (e.source ∈ presentIds parsed ∧ e.target ∈ presentIds parsed))).map
        (fun e => { id := e.source ++ "->" ++ e.target, source := e.source,
                    target := e.target, type := "bezier" }) := by
  rw [mergeGraph_edges, buildEdges_eq]

/-- C1 counterexample: the id `A.f` is trashed in the panel and present
again among the fresh function ids, yet the merge KEEPS it in the output
trashed set (the source unions the old trash unconditionally,
`store.ts` line 217), contradicting the claim that the merge removes it. -/
theorem mergeGraph_trash_not_cleared_counterexample :
    "A.f" ∈ panelTrashedAf.trashedNodeIds ∧
    "A.f" ∈ presentIds resultWithAf ∧
    "A.f" ∈ (mergeGraph zeroRadial panelTrashedAf resultWithAf).trashedNodeIds := by
  decide

/-- C1 (amended): a previously trashed id stays in the merge's output
trashed set even when it is present again among the fresh function ids
(trash persists across syncs; only an explicit restore removes it), while
the node's fresh edges — like every fresh edge with both endpoints
present — are restored to the output edge list. -/
theorem mergeGraph_trash_persists_edges_restored
    (rp : Nat → String → Pos) (panel : Panel) (parsed : ParseResult) (id : String)
    (h : id ∈ panel.trashedNodeIds) :
    id ∈ (mergeGraph rp panel parsed).trashedNodeIds ∧
    ∀ e ∈ parsed.edges, e.source ∈ presentIds parsed → e.target ∈ presentIds parsed →
      ({ id := e.source ++ "->" ++ e.target, source := e.source, target := e.target,
         type := "bezier" } : CallEdge) ∈ (mergeGraph rp panel parsed).edges := by
  constructor
  · rw [mergeGraph_trashed, mem_uniq, List.mem_append]
    exact Or.inl h
  · intro e he hs ht
    rw [mergeGraph_edges, buildEdges_eq]
    exact List.mem_map.mpr ⟨e, List.mem_filter.mpr ⟨he, by simp [hs, ht]⟩, rfl⟩

/-- Witness for amended C1: the trashed, re-listed `A.f` stays trashed and
its edge `A.f -> A.g` is restored. -/
theorem mergeGraph_trash_persists_edges_restored_witness :
    "A.f" ∈ (mergeGraph zeroRadial panelTrashedAf resultWithAf).trashedNodeIds ∧
    ({ id := "A.f->A.g", source := "A.f", target := "A.g",
       type := "bezier" } : CallEdge) ∈
      (mergeGraph zeroRadial panelTrashedAf resultWithAf).edges := by
  have h := mergeGraph_trash_persists_edges_restored zeroRadial panelTrashedAf
    resultWithAf "A.f" (by decide)
  exact ⟨h.1, h.2 { source := "A.f", target := "A.g" } (by decide) (by decide) (by decide)⟩

/-- C10 counterexample: a preserved (vanished) node keeps its previous
`hasNote` flag instead of recomputing it from the notes map — here the
flag is `true` while the panel holds no note at all, contradicting the
claim's "exactly when" over all output nodes. -/
theorem mergeGraph_hasNote_stale_counterexample :
    (mergeGraph zeroRadial panelStaleNote emptyResult).nodes = [nodeAf] ∧
    nodeAf.data.hasNote = true ∧
    recordGet panelStaleNote.notesByNodeId nodeAf.id = none := by
  decide

/-- C10 (amended): for every output node whose id is among the fresh
function ids, `hasNote` is true exactly when the panel's notes map holds a
note for that id whose content is non-empty after trimming whitespace (a
whitespace-only note counts as no note); nodes preserved from the previous
panel state keep their previous flag. -/
theorem mergeGraph_hasNote_iff_nonblank_note
    (rp : Nat → String → Pos) (panel : Panel) (parsed : ParseResult) (n : FunctionNode)
    (hn : n ∈ (mergeGraph rp panel parsed).nodes)
    (hp : n.id ∈ presentIds parsed) :
    n.data.hasNote = true ↔
      ∃ note, recordGet panel.notesByNodeId n.id = some note ∧
        ¬ jsTrim note.content = "" := by
  rw [mergeGraph_nodes] at hn
  rcases List.mem_append.mp hn with hf | hpres
  · rcases of_mem_buildFreshNodes rp panel parsed.functions 0 n hf with ⟨j, fn, hfn, hn'⟩
    subst hn'
    rw [mergeNodeFor_hasNote, mergeNodeFor_id]
    cases h : recordGet panel.notesByNodeId (deriveId fn) with
    | none => simp [h]
    | some note => simp [h]
  · exfalso
    rcases List.mem_filterMap.mp hpres with ⟨a, ha, hm⟩
    have hid := (mapGetLast_mem a panel.nodes n hm).2
    rcases List.mem_filter.mp ha with ⟨-, hnp⟩
    rw [hid] at hp
    simp at hnp
    exact hnp hp

/-- Witness for amended C10: `A.g` carries a real note (`hasNote = true`),
`A.f` only a whitespace note (`hasNote = false`). -/
theorem mergeGraph_hasNote_iff_nonblank_note_witness :
    ((mergeNodeFor zeroRadial panelNotes 1
        { id := "A.g", contractName := "A", functionName := "g",
          visibility := "public" }).data.hasNote = true ↔
      ∃ note, recordGet panelNotes.notesByNodeId "A.g" = some note ∧
        ¬ jsTrim note.content = "") := by
  have h := mergeGraph_hasNote_iff_nonblank_note zeroRadial panelNotes
    { functions :=
        [{ id := "A.f", contractName := "A", functionName := "f", visibility := "public" },
         { id := "A.g", contractName := "A", functionName := "g", visibility := "public" }],
      edges := [] }
    (mergeNodeFor zeroRadial panelNotes 1
      { id := "A.g", contractName := "A", functionName := "g", visibility := "public" })
    (by decide) (by decide)
  simpa using h

theorem repositionNode_id (simmed : List SimNode) (n : FunctionNode) :
    (repositionNode simmed n).id = n.id := by
  unfold repositionNode
  cases simGetLast simmed n.id <;> rfl

theorem anchoredReposition_id (existingIds : List String) (layouted : List FunctionNode)
    (n : FunctionNode) : (anchoredReposition existingIds layouted n).id = n.id := by
  unfold anchoredReposition
  by_cases h : n.id ∈ existingIds
  · rw [if_pos h]
  · rw [if_neg h]
    cases mapGetLast layouted n.id <;> rfl

theorem anchoredReposition_mem (existingIds : List String) (layouted : List FunctionNode)
    (n : FunctionNode) (h : n.id ∈ existingIds) :
    anchoredReposition existingIds layouted n = n := by
  unfold anchoredReposition
  rw [if_pos h]

theorem applyForceLayout_map_id (simulate : List SimNode → List SimLink → List SimNode)
    (nodes : List FunctionNode) (edges : List CallEdge) (fixedIds : Option (List String)) :
    (applyForceLayout simulate nodes edges fixedIds).map (·.id) = nodes.map (·.id) := by
  unfold applyForceLayout
  rw [List.map_map]
  apply List.map_congr_left
  intro n _
  simp [Function.comp, repositionNode_id]

theorem mergeGraph_preserves_positions (rp : Nat → String → Pos) (panel : Panel)
    (parsed : ParseResult) (hnd : (panel.nodes.map (·.id)).Nodup) :
    ∀ n ∈ panel.nodes, ∃ m ∈ (mergeGraph rp panel parsed).nodes,
      m.id = n.id ∧ m.position = n.position := by
  intro n hn
  rw [mergeGraph_nodes]
  by_cases hp : n.id ∈ presentIds parsed
  · rcases List.mem_map.mp hp with ⟨fn, hfn, hid⟩
    rcases mem_buildFreshNodes_of_mem rp panel parsed.functions 0 fn hfn with ⟨j, hj⟩
    refine ⟨mergeNodeFor rp panel j fn, List.mem_append_left _ hj,
      by rw [mergeNodeFor_id, hid], ?_⟩
    have hlast : mapGetLast panel.nodes (deriveId fn) = some n := by
      rw [hid]; exact mapGetLast_nodup panel.nodes hnd n hn
    exact mergeNodeFor_position rp panel j fn n hlast
  · have hlast := mapGetLast_nodup panel.nodes hnd n hn
    refine ⟨n, List.mem_append_right _ ?_, rfl, rfl⟩
    refine List.mem_filterMap.mpr ⟨n.id, List.mem_filter.mpr ⟨?_, ?_⟩, hlast⟩
    · exact (mem_uniq _ _).mpr (List.mem_map.mpr ⟨n, hn, rfl⟩)
    · simpa using hp

/-- C7: for every sync into a panel (with well-formed, duplicate-free node
ids), every node whose id existed before the sync keeps its exact position
in the output: the merge updates existing nodes in place, and the anchored
layout — whatever positions the (abstracted) force simulation produces —
repositions only the newly introduced nodes, because the store reinstates
the merged positions for every pre-existing id (`store.ts` lines 489-493). -/
theorem syncPanelApply_preserves_existing_positions
    (simulate : List SimNode → List SimLink → List SimNode)
    (rp : Nat → String → Pos) (panel : Panel) (result : ParseResult)
    (hnd : (panel.nodes.map (·.id)).Nodup) :
    ∀ n ∈ panel.nodes, ∃ m ∈ (syncPanelApply simulate rp panel result).nodes,
      m.id = n.id ∧ m.position = n.position := by
  intro n hn
  obtain ⟨m, hm, hmid, hmpos⟩ := mergeGraph_preserves_positions rp panel result hnd n hn
  simp only [syncPanelApply]
  split_ifs with h0 h1 h2
  · exact absurd (List.length_eq_zero.mp h0 ▸ hm) (List.not_mem_nil m)
  · refine ⟨m, List.mem_map.mpr ⟨m, hm, ?_⟩, hmid, hmpos⟩
    apply anchoredReposition_mem
    rw [hmid]
    exact (mem_uniq _ _).mpr (List.mem_map.mpr ⟨n, hn, rfl⟩)
  · exact ⟨m, hm, hmid, hmpos⟩
  · exfalso
    apply h1
    have hmem : n.id ∈ uniq (panel.nodes.map (·.id)) :=
      (mem_uniq _ _).mpr (List.mem_map.mpr ⟨n, hn, rfl⟩)
    exact List.length_pos_of_mem hmem

/-- Witness for C7: the pre-existing node `A.f` at position `(3, 4)` keeps
that exact position when the sync introduces the new node `A.g`. -/
theorem syncPanelApply_preserves_existing_positions_witness :
    (panelStaleNote.nodes.map (·.id)).Nodup ∧
    ∃ m ∈ (syncPanelApply idSimulate zeroRadial panelStaleNote resultWithAf).nodes,
      m.id = nodeAf.id ∧ m.position = nodeAf.position :=
  ⟨by decide,
   syncPanelApply_preserves_existing_positions idSimulate zeroRadial panelStaleNote
     resultWithAf (by decide) nodeAf (by decide)⟩

theorem syncPanelApply_map_id (simulate : List SimNode → List SimLink → List SimNode)
    (rp : Nat → String → Pos) (p : Panel) (result : ParseResult) :
    (syncPanelApply simulate rp p result).nodes.map (·.id) =
      (mergeGraph rp p result).nodes.map (·.id) := by
  simp only [syncPanelApply]
  split_ifs with h0 h1 h2
  · rfl
  · dsimp only
    rw [List.map_map]
    apply List.map_congr_left
    intro n _
    simp [Function.comp, anchoredReposition_id]
  · rfl
  · dsimp only
    exact applyForceLayout_map_id _ _ _ _

theorem syncPanelApply_edges (simulate : List SimNode → List SimLink → List SimNode)
    (rp : Nat → String → Pos) (p : Panel) (result : ParseResult) :
    (syncPanelApply simulate rp p result).edges = (mergeGraph rp p result).edges := by
  simp only [syncPanelApply]
  split_ifs <;> rfl

theorem syncPanelApply_trashed (simulate : List SimNode → List SimLink → List SimNode)
    (rp : Nat → String → Pos) (p : Panel) (result : ParseResult) :
    (syncPanelApply simulate rp p result).trashedNodeIds =
      (mergeGraph rp p result).trashedNodeIds := by
  simp only [syncPanelApply]
  split_ifs <;> rfl

theorem filterMap_mapGetLast_map_id (ns : List FunctionNode) :
    ∀ ids : List String, (∀ i ∈ ids, ∃ n ∈ ns, n.id = i) →
      (ids.filterMap (fun id => mapGetLast ns id)).map (·.id) = ids := by
  intro ids
  induction ids with
  | nil => intro _; rfl
  | cons a rest ih =>
    intro h
    rcases mapGetLast_isSome a ns (h a (List.mem_cons_self _ _)) with ⟨m, hm⟩
    simp [List.filterMap_cons, hm, (mapGetLast_mem a ns m hm).2,
      ih (fun i hi => h i (List.mem_cons_of_mem _ hi))]

theorem mergeGraph_map_id (rp : Nat → String → Pos) (panel : Panel) (parsed : ParseResult) :
    (mergeGraph rp panel parsed).nodes.map (·.id) =
      presentIds parsed ++
        (uniq (panel.nodes.map (·.id))).filter (fun id => ¬ id ∈ presentIds parsed) := by
  rw [mergeGraph_nodes, List.map_append, buildFreshNodes_map_id,
    filterMap_mapGetLast_map_id]
  · rfl
  · intro i hi
    rcases List.mem_filter.mp hi with ⟨hu, -⟩
    rcases List.mem_map.mp ((mem_uniq _ _).mp hu) with ⟨n, hn, hid⟩
    exact ⟨n, hn, hid⟩

/-- C5: merging the same ParseResult again into an already-synced panel
yields a diff with zero added nodes, zero added edges, zero newly trashed
(removed) nodes and zero removed edges, for every starting panel and every
result. -/
theorem syncPanelApply_idempotent_zero_diff
    (simulate : List SimNode → List SimLink → List SimNode)
    (rp : Nat → String → Pos) (panel : Panel) (result : ParseResult) :
    computeSyncStats (syncPanelApply simulate rp panel result)
      (syncPanelApply simulate rp (syncPanelApply simulate rp panel result) result) =
      { addedNodes := 0, addedEdges := 0, removedNodes := 0, removedEdges := 0 } := by
  set p1 := syncPanelApply simulate rp panel result with hp1
  set p2 := syncPanelApply simulate rp p1 result with hp2
  have hids1 : p1.nodes.map (·.id) =
      presentIds result ++
        (uniq (panel.nodes.map (·.id))).filter (fun id => ¬ id ∈ presentIds result) := by
    rw [hp1, syncPanelApply_map_id, mergeGraph_map_id]
  have hids2 : p2.nodes.map (·.id) =
      presentIds result ++
        (uniq (p1.nodes.map (·.id))).filter (fun id => ¬ id ∈ presentIds result) := by
    rw [hp2, syncPanelApply_map_id, mergeGraph_map_id]
  have hed1 : p1.edges = buildEdges (presentIds result) result.edges := by
    rw [hp1, syncPanelApply_edges, mergeGraph_edges]
  have hed2 : p2.edges = buildEdges (presentIds result) result.edges := by
    rw [hp2, syncPanelApply_edges, mergeGraph_edges]
  have htr1 : p1.trashedNodeIds =
      uniq (panel.trashedNodeIds ++
        (uniq (panel.nodes.map (·.id))).filter (fun id => ¬ id ∈ presentIds result)) := by
    rw [hp1, syncPanelApply_trashed, mergeGraph_trashed]
  have htr2 : p2.trashedNodeIds =
      uniq (p1.trashedNodeIds ++
        (uniq (p1.nodes.map (·.id))).filter (fun id => ¬ id ∈ presentIds result)) := by
    rw [hp2, syncPanelApply_trashed, mergeGraph_trashed]
  have hnodes_sub : ∀ x, x ∈ p2.nodes.map (·.id) → x ∈ p1.nodes.map (·.id) := by
    intro x hx
    rw [hids2] at hx
    rcases List.mem_append.mp hx with hx | hx
    · rw [hids1]; exact List.mem_append_left _ hx
    · exact (mem_uniq _ _).mp (List.mem_filter.mp hx).1
  have htr_sub : ∀ x, x ∈ p2.trashedNodeIds → x ∈ p1.trashedNodeIds := by
    intro x hx
    rw [htr2, mem_uniq, List.mem_append] at hx
    rcases hx with hx | hx
    · exact hx
    · rcases List.mem_filter.mp hx with ⟨hu, hnp⟩
      have hx1 : x ∈ p1.nodes.map (·.id) := (mem_uniq _ _).mp hu
      rw [hids1] at hx1
      rcases List.mem_append.mp hx1 with hx1 | hx1
      · exfalso
        simp only [decide_not, Bool.not_eq_true', decide_eq_false_iff_not] at hnp
        exact hnp hx1
      · rw [htr1, mem_uniq, List.mem_append]
        exact Or.inr hx1
  have hzero : ∀ (l l' : List String), (∀ x ∈ l, x ∈ l') →
      (l.filter (fun id => ¬ id ∈ l')).length = 0 := by
    intro l l' h
    rw [List.length_eq_zero, List.filter_eq_nil_iff]
    intro a ha
    simpa using h a ha
  simp only [computeSyncStats, SyncStats.mk.injEq]
  refine ⟨?_, ?_, ?_, ?_⟩
  · exact hzero _ _ (fun x hx =>
      (mem_uniq _ _).mpr (hnodes_sub x ((mem_uniq _ _).mp hx)))
  · rw [hed1, hed2]
    exact hzero _ _ (fun x hx => hx)
  · exact hzero _ _ htr_sub
  · rw [hed1, hed2]
    exact hzero _ _ (fun x hx => hx)

theorem SMap.get_set_self {α : Type} (m : SMap α) (k : String) (v : α) :
    (m.set k v).get k = some v := by
  induction m with
  | nil => simp [SMap.set, SMap.get]
  | cons p m ih =>
    by_cases h : p.1 = k
    · simp [SMap.set, SMap.get, h]
    · simp [SMap.set, SMap.get, h, ih]

theorem SMap.get_set_ne {α : Type} (m : SMap α) (k k' : String) (v : α)
    (h : k' ≠ k) : (m.set k v).get k' = m.get k' := by
  induction m with
  | nil =>
    simp only [SMap.set, SMap.get]
    rw [if_neg (fun he => h he.symm)]
  | cons p m ih =>
    by_cases hp : p.1 = k
    · rw [SMap.set, if_pos hp, SMap.get, SMap.get]
      rw [if_neg (fun he : k = k' => h he.symm),
        if_neg (fun he : p.1 = k' => h (hp ▸ he).symm)]
    · rw [SMap.set, if_neg hp, SMap.get, SMap.get]
      by_cases hk : p.1 = k'
      · rw [if_pos hk, if_pos hk]
      · rw [if_neg hk, if_neg hk, ih]

theorem countKey_append (l : List ParseFunction) (x : ParseFunction) (b : String) :
    countKey (l ++ [x]) b = countKey l b + (if fnKey x = b then 1 else 0) := by
  unfold countKey
  rw [List.filter_append]
  by_cases h : fnKey x = b <;> simp [h]

theorem idsOk_append (l : List ParseFunction) (x : ParseFunction)
    (hl : ∀ pre f post, l = pre ++ f :: post →
      f.id = mkNumberedId (fnKey f) (countKey pre (fnKey f) + 1))
    (hx : x.id = mkNumberedId (fnKey x) (countKey l (fnKey x) + 1)) :
    ∀ pre f post, l ++ [x] = pre ++ f :: post →
      f.id = mkNumberedId (fnKey f) (countKey pre (fnKey f) + 1) := by
  intro pre f post h
  rcases List.eq_nil_or_concat post with hpost | ⟨post', y, hpost⟩
  · subst hpost
    rcases List.append_inj' h rfl with ⟨hpre, hxf⟩
    cases hxf
    exact hpre ▸ hx
  · subst hpost
    have h' : l ++ [x] = (pre ++ f :: post') ++ [y] := by
      rw [h]; simp
    rcases List.append_inj' h' rfl with ⟨hl', hxy⟩
    exact hl pre f post' hl'

theorem scanFunction_inv (cn : String) (st : ScanState) (sub : SubNode)
    (hinv : ScanInv st) : ScanInv (scanFunction cn st sub) := by
  obtain ⟨hseen, hids⟩ := hinv
  cases sub with
  | other => exact ⟨hseen, hids⟩
  | functionDef fd =>
    constructor
    · intro b
      show ((st.seen.set (cn ++ "." ++ functionDisplayName fd) _).get b).getD 0 = _
      by_cases hb : b = cn ++ "." ++ functionDisplayName fd
      · subst hb
        rw [SMap.get_set_self]
        show (st.seen.get _).getD 0 + 1 = _
        rw [hseen]
        show _ = countKey (st.functions ++ [_]) _
        rw [countKey_append]
        simp [fnKey]
      · rw [SMap.get_set_ne _ _ _ _ hb]
        rw [hseen]
        show _ = countKey (st.functions ++ [_]) b
        rw [countKey_append, if_neg (fun he => hb he.symm), Nat.add_zero]
    · show ∀ pre f post, st.functions ++ [_] = pre ++ f :: post → _
      apply idsOk_append st.functions _ hids
      show (if (st.seen.get (cn ++ "." ++ functionDisplayName fd)).getD 0 + 1 = 1
          then cn ++ "." ++ functionDisplayName fd
          else cn ++ "." ++ functionDisplayName fd ++ "#" ++
            toString ((st.seen.get (cn ++ "." ++ functionDisplayName fd)).getD 0 + 1)) =
        mkNumberedId _ _
      rw [hseen]
      rfl

theorem foldl_scanFunction_inv (cn : String) :
    ∀ (subs : List SubNode) (st : ScanState), ScanInv st →
      ScanInv (subs.foldl (scanFunction cn) st) := by
  intro subs
  induction subs with
  | nil => intro st h; exact h
  | cons sub rest ih => intro st h; exact ih _ (scanFunction_inv cn st sub h)

theorem scanContract_inv (st : ScanState) (c : ContractDef) (hinv : ScanInv st) :
    ScanInv (scanContract st c) := by
  unfold scanContract
  apply foldl_scanFunction_inv
  split_ifs <;> exact hinv

theorem foldl_scanContract_inv :
    ∀ (cs : List ContractDef) (st : ScanState), ScanInv st →
      ScanInv (cs.foldl scanContract st) := by
  intro cs
  induction cs with
  | nil => intro st h; exact h
  | cons c rest ih => intro st h; exact ih _ (scanContract_inv st c h)

theorem scanAst_inv (ast : Ast) : ScanInv (scanAst ast) := by
  unfold scanAst
  apply foldl_scanContract_inv
  constructor
  · intro b; rfl
  · intro pre f post h
    simp [ScanState.initial] at h

/-- C8: in the analyzer's output, the first occurrence (in declaration
order) of a display name within a contract gets the identity
`Contract.Name`, and the k-th occurrence (k ≥ 2) gets `Contract.Name#k`.
The `hinj` hypothesis rules out degenerate identity-key collisions between
distinct (contract, function) name pairs — impossible for real Solidity
identifiers, which cannot contain a dot. -/
theorem parseSoliditySource_overload_numbering
    (parse : String → Except Unit Ast) (code : String) (ast : Ast)
    (hparse : parse code = Except.ok ast)
    (hinj : ∀ f ∈ (parseSoliditySource parse code).functions,
      ∀ g ∈ (parseSoliditySource parse code).functions, fnKey f = fnKey g →
        f.contractName = g.contractName ∧ f.functionName = g.functionName)
    (pre : List ParseFunction) (f : ParseFunction) (post : List ParseFunction)
    (hsplit : (parseSoliditySource parse code).functions = pre ++ f :: post) :
    f.id = mkNumberedId (f.contractName ++ "." ++ f.functionName)
      ((pre.filter (fun g => g.contractName = f.contractName ∧
        g.functionName = f.functionName)).length + 1) := by
  have hfuncs : (parseSoliditySource parse code).functions = (scanAst ast).functions := by
    unfold parseSoliditySource
    rw [hparse]
  rw [hfuncs] at hsplit hinj
  have hkey := (scanAst_inv ast).2 pre f post hsplit
  have hgpre : ∀ g ∈ pre, g ∈ (scanAst ast).functions := by
    intro g hg
    rw [hsplit]
    exact List.mem_append_left _ hg
  have hfmem : f ∈ (scanAst ast).functions := by
    rw [hsplit]
    exact List.mem_append_right _ (List.mem_cons_self f post)
  have hcount : countKey pre (fnKey f) = (pre.filter (fun g =>
      g.contractName = f.contractName ∧ g.functionName = f.functionName)).length := by
    unfold countKey
    congr 1
    apply List.filter_congr
    intro g hg
    apply decide_eq_decide.mpr
    constructor
    · exact fun hk => hinj g (hgpre g hg) f hfmem hk
    · intro hp
      unfold fnKey
      rw [hp.1, hp.2]
  rw [hkey, hcount]
  rfl

/-- Witness for C8: a contract with two functions named `f` gets
`Contract.f` and `Contract.f#2`, and the second one satisfies the
numbering rule with k = 2. -/
theorem parseSoliditySource_overload_numbering_witness :
    (parseSoliditySource overloadParse "src").functions =
      [{ id := "Contract.f", contractName := "Contract", functionName := "f",
         visibility := "public" },
       { id := "Contract.f#2", contractName := "Contract", functionName := "f",
         visibility := "internal" }] ∧
    ({ id := "Contract.f#2", contractName := "Contract", functionName := "f",
       visibility := "internal" } : ParseFunction).id =
      mkNumberedId ("Contract" ++ "." ++ "f")
        (([({ id := "Contract.f", contractName := "Contract", functionName := "f",
              visibility := "public" } : ParseFunction)].filter
          (fun g => g.contractName = "Contract" ∧ g.functionName = "f")).length + 1) :=
  ⟨by decide,
   parseSoliditySource_overload_numbering overloadParse "src" overloadAst rfl
     (by decide)
     [{ id := "Contract.f", contractName := "Contract", functionName := "f",
        visibility := "public" }]
     { id := "Contract.f#2", contractName := "Contract", functionName := "f",
       visibility := "internal" }
     [] (by decide)⟩

theorem SMap.get_some_mem_keys {α : Type} (m : SMap α) (k : String) (v : α)
    (h : m.get k = some v) : k ∈ m.keys := by
  induction m with
  | nil => simp [SMap.get] at h
  | cons p m ih =>
    rw [SMap.get] at h
    show k ∈ (p :: m).map (·.1)
    rw [List.map_cons]
    by_cases hp : p.1 = k
    · exact List.mem_cons.mpr (Or.inl hp.symm)
    · rw [if_neg hp] at h
      exact List.mem_cons_of_mem _ (ih h)

theorem length_filter_lt (name : String) (r : List String) :
    ∀ (l : List String), name ∈ l → ¬ name ∈ r →
      (l.filter (fun k => ¬ k ∈ name :: r)).length <
        (l.filter (fun k => ¬ k ∈ r)).length := by
  intro l
  induction l with
  | nil => intro hmem _; simp at hmem
  | cons a l ih =>
    intro hmem hnr
    rw [List.filter_cons, List.filter_cons]
    by_cases ha : a = name
    · subst ha
      rw [if_neg (by simp), if_pos (by simpa using hnr)]
      have hmono : (l.filter (fun k => ¬ k ∈ a :: r)).length ≤
          (l.filter (fun k => ¬ k ∈ r)).length := by
        apply List.Sublist.length_le
        apply List.monotone_filter_right
        intro x hx
        simp only [decide_eq_true_eq, List.mem_cons, not_or] at hx ⊢
        exact hx.2
      exact Nat.lt_succ_of_le hmono
    · rcases List.mem_cons.mp hmem with he | hmem'
      · exact absurd he.symm ha
      · by_cases har : a ∈ r
        · rw [if_neg (by simp [har]), if_neg (by simp [har])]
          exact ih hmem' hnr
        · rw [if_pos (by simp [ha, har]), if_pos (by simpa using har)]
          simpa using ih hmem' hnr

theorem freeCount_cons_lt (bcc : SMap (List String)) (name : String) (r : List String)
    (hmem : name ∈ bcc.keys) (hnr : ¬ name ∈ r) :
    freeCount bcc (name :: r) < freeCount bcc r :=
  length_filter_lt name r bcc.keys hmem hnr

theorem goBases_congr (gt₁ gt₂ : SMap TMap → String → SMap TMap × TMap)
    (h : ∀ c b, gt₁ c b = gt₂ c b) :
    ∀ (bs : List String) (cache : SMap TMap) (acc : TMap),
      goBases gt₁ cache acc bs = goBases gt₂ cache acc bs := by
  intro bs
  induction bs with
  | nil => intro cache acc; rfl
  | cons b bs ih =>
    intro cache acc
    simp only [goBases]
    rw [h]
    exact ih _ _

theorem getTargetsF_succ (fidc : SMap TMap) (bcc : SMap (List String)) :
    ∀ (fuel : Nat) (resolving : List String) (cache : SMap TMap) (name : String),
      freeCount bcc resolving < fuel →
      getTargetsF fidc bcc (fuel + 1) resolving cache name =
        getTargetsF fidc bcc fuel resolving cache name := by
  intro fuel
  induction fuel with
  | zero => intro r c n h; exact absurd h (Nat.not_lt_zero _)
  | succ fuel ih =>
    intro r c n h
    rw [getTargetsF.eq_2, getTargetsF.eq_2]
    cases hcache : SMap.get c n with
    | some t => rfl
    | none =>
      dsimp only
      by_cases hr : n ∈ r
      · rw [if_pos hr, if_pos hr]
      · rw [if_neg hr, if_neg hr]
        cases hbases : SMap.get bcc n with
        | none => rfl
        | some bs =>
          have hmem := SMap.get_some_mem_keys bcc n bs hbases
          have hlt : freeCount bcc (n :: r) < fuel :=
            Nat.lt_of_lt_of_le (freeCount_cons_lt bcc n r hmem hr) (Nat.lt_succ_iff.mp h)
          rw [goBases_congr (getTargetsF fidc bcc (fuel + 1) (n :: r))
            (getTargetsF fidc bcc fuel (n :: r)) (fun c' b' => ih (n :: r) c' b' hlt)]

theorem getTargetsF_fuel_irrel (fidc : SMap TMap) (bcc : SMap (List String))
    (r : List String) (c : SMap TMap) (n : String) (f₁ f₂ : Nat)
    (h₁ : freeCount bcc r < f₁) (h₂ : freeCount bcc r < f₂) :
    getTargetsF fidc bcc f₁ r c n = getTargetsF fidc bcc f₂ r c n := by
  have key : ∀ f, freeCount bcc r < f →
      getTargetsF fidc bcc f r c n =
        getTargetsF fidc bcc (freeCount bcc r + 1) r c n := by
    intro f
    induction f with
    | zero => intro hf; exact absurd hf (Nat.not_lt_zero _)
    | succ f ihf =>
      intro hf
      rcases Nat.lt_succ_iff_lt_or_eq.mp hf with hlt | heq
      · rw [getTargetsF_succ fidc bcc f r c n hlt]
        exact ihf hlt
      · rw [heq]
  rw [key f₁ h₁, key f₂ h₂]

/-- C9: the per-contract inheritance resolution terminates on every input,
cycles included — the result is independent of the stack fuel once it
exceeds the number of unresolved contracts with bases, which is the
termination argument for the source's recursion (third conjunct); while a
contract's table is being computed, a re-entrant request for it returns an
empty table instead of recursing (second conjunct); and once a contract's
table is cached it is returned as-is, so it is computed at most once per
analysis pass (first conjunct). -/
theorem getTargets_cycle_safe_memoized (fidc : SMap TMap) (bcc : SMap (List String)) :
    (∀ (fuel : Nat) (resolving : List String) (cache : SMap TMap) (name : String)
      (t : TMap), cache.get name = some t →
        getTargetsF fidc bcc (fuel + 1) resolving cache name = (cache, t)) ∧
    (∀ (fuel : Nat) (resolving : List String) (cache : SMap TMap) (name : String),
      cache.get name = none → name ∈ resolving →
        getTargetsF fidc bcc (fuel + 1) resolving cache name = (cache, [])) ∧
    (∀ (resolving : List String) (cache : SMap TMap) (name : String) (f₁ f₂ : Nat),
      freeCount bcc resolving < f₁ → freeCount bcc resolving < f₂ →
        getTargetsF fidc bcc f₁ resolving cache name =
          getTargetsF fidc bcc f₂ resolving cache name) := by
  refine ⟨?_, ?_, ?_⟩
  · intro fuel r c n t h
    simp only [getTargetsF, h]
  · intro fuel r c n hc hr
    simp only [getTargetsF, hc]
    rw [if_pos hr]
  · intro r c n f₁ f₂ h₁ h₂
    exact getTargetsF_fuel_irrel fidc bcc r c n f₁ f₂ h₁ h₂

/-- Witness for C9 on a cyclic inheritance graph (`A is B`, `B is A`): a
cached table is returned unchanged, a re-entrant request yields the empty
table, and two different sufficient fuels agree. -/
theorem getTargets_cycle_safe_memoized_witness :
    (getTargetsF cyclicFidc cyclicBcc 1 [] [("A", [("z", ["Z"])])] "A" =
      ([("A", [("z", ["Z"])])], [("z", ["Z"])])) ∧
    (getTargetsF cyclicFidc cyclicBcc 1 ["A"] [] "A" = ([], [])) ∧
    (getTargetsF cyclicFidc cyclicBcc 3 [] [] "A" =
      getTargetsF cyclicFidc cyclicBcc 7 [] [] "A") :=
  ⟨(getTargets_cycle_safe_memoized cyclicFidc cyclicBcc).1 0 [] _ "A" _ (by decide),
   (getTargets_cycle_safe_memoized cyclicFidc cyclicBcc).2.1 0 ["A"] [] "A"
     (by decide) (by decide),
   (getTargets_cycle_safe_memoized cyclicFidc cyclicBcc).2.2 [] [] "A" 3 7
     (by decide) (by decide)⟩

/-- C3: for the source `contract B { function g() { _h(); } function _h() {} }`
with `contract A is B { function f() { super.g(); } }` (where `g` is not
overridden in `A`), analysis yields the edge `A.f -> B.g`; and a
member-access call `x.g()` whose receiver `x` is not `this`, not `super`,
not the calling contract's name and not the name of a known contract emits
no edge — the call handler returns its state unchanged. -/
theorem super_edge_and_unresolvable_receiver_no_edge :
    (({ source := "A.f", target := "B.g" } : ParseEdge) ∈
      (parseSoliditySource inheritanceParse inheritanceSource).edges) ∧
    (∀ (fidc : SMap TMap) (bcc : SMap (List String)) (fn : ParseFunction)
      (st : EdgeState) (m : Option String) (x : String),
      x ≠ "this" → x ≠ "super" → x ≠ fn.contractName → fidc.get x = none →
      handleCall fidc bcc fn st
        { expression := some (Expression.memberAccess m
            (Expression.identifier (some x))) } = st) := by
  constructor
  · decide
  · intro fidc bcc fn st m x hthis hsuper hself hknown
    unfold handleCall
    cases m with
    | none => rfl
    | some m' =>
      by_cases hm : m' = ""
      · simp [hm]
      · by_cases hx : x = ""
        · simp [hm, hx]
        · simp [hm, hx, hthis, hsuper, hself, hknown]

/-- Witness for C3: a call `token.g()` from `A.f` — `token` being no known
contract — leaves a concrete edge state untouched. -/
theorem super_edge_and_unresolvable_receiver_no_edge_witness :
    handleCall cyclicFidc cyclicBcc
      { id := "A.f", contractName := "A", functionName := "f", visibility := "public" }
      { cache := [], edgeIds := ["A.f->A.g"],
        edges := [{ source := "A.f", target := "A.g" }] }
      { expression := some (Expression.memberAccess (some "g")
          (Expression.identifier (some "token"))) } =
      { cache := [], edgeIds := ["A.f->A.g"],
        edges := [{ source := "A.f", target := "A.g" }] } :=
  super_edge_and_unresolvable_receiver_no_edge.2 cyclicFidc cyclicBcc
    { id := "A.f", contractName := "A", functionName := "f", visibility := "public" }
    { cache := [], edgeIds := ["A.f->A.g"],
      edges := [{ source := "A.f", target := "A.g" }] }
    (some "g") "token" (by decide) (by decide) (by decide) (by decide)
